import Mathlib

/-!
Shallow embedding of the Cursor Cloud Agents API client
(`cursor-api.mjs`): the HTTP error path of `request`, the body
construction and local validation of `launchAgent`, and the polling
logic `pollAgent` / `pollAgents`.

Remote fetches are modelled as oracles: a value of type
`Nat → String → Option Agent` gives, for each poll round and job id,
either `some a` (the settled fulfilled value of `getAgent`) or `none`
(the fetch rejected).  Wall-clock time is modelled by a fuel
parameter: the number of times the check `Date.now() < deadline`
succeeds.  `PollState` additionally records a log of fetch events
`(round, id)` and the number of sleeps performed, so that claims
about "no network call" and "zero sleeps" are statable.
-/

namespace CursorTeam

/-- A Job record as observed through the API: only the fields the
polling logic inspects (`id`, `status`); all other fields are opaque
pass-through metadata. -/
structure Agent where
  id : String
  status : String
deriving DecidableEq, Repr

/-- `const TERMINAL_STATUSES = new Set(["FINISHED", "STOPPED", "FAILED"])`. -/
def TERMINAL_STATUSES : List String := ["FINISHED", "STOPPED", "FAILED"]

/-- `TERMINAL_STATUSES.has(s)`. -/
def isTerminal (s : String) : Bool := TERMINAL_STATUSES.contains s

/-- The `results` JS `Map`, as an insertion-ordered association list. -/
abbrev ResultsMap := List (String × Agent)

/-- `results.has(k)`. -/
def mapHas (m : ResultsMap) (k : String) : Bool := m.any (fun p => p.1 == k)

/-- `results.get(k)` (`none` when absent). -/
def mapGet (m : ResultsMap) (k : String) : Option Agent :=
  (m.find? (fun p => p.1 == k)).map (fun p => p.2)

/-- `results.set(k, v)`: overwrite in place when the key is present
(JS `Map.set` keeps the original insertion position), otherwise
append at the end. -/
def mapSet : ResultsMap → String → Agent → ResultsMap
  | [], k, v => [(k, v)]
  | p :: m, k, v => if p.1 == k then (k, v) :: m else p :: mapSet m k v

/-- One tick's result-recording loop of `pollAgents` (lines 338-347):
for each pending id in order, if its fetch fulfilled (`some a`) and the
status is terminal, record it; a rejected fetch (`none`) or a
non-terminal status leaves the map untouched. -/
def processTick (f : String → Option Agent) (pending : List String)
    (res : ResultsMap) : ResultsMap :=
  pending.foldl (fun acc jid =>
    match f jid with
    | some a => if isTerminal a.status then mapSet acc jid a else acc
    | none => acc) res

/-- The final sweep's result-recording loop of `pollAgents`
(lines 359-363): every fulfilled fetch is recorded, with no terminal
check. -/
def processSweep (f : String → Option Agent) (pending : List String)
    (res : ResultsMap) : ResultsMap :=
  pending.foldl (fun acc jid =>
    match f jid with
    | some a => mapSet acc jid a
    | none => acc) res

/-- In-flight state of one `pollAgents` session, instrumented with the
fetch-event log and the number of sleeps. `round` numbers the batches
of concurrent `getAgent` calls so the oracle can vary over time. -/
structure PollState where
  results : ResultsMap
  fetchLog : List (Nat × String)
  sleeps : Nat
  round : Nat
deriving DecidableEq, Repr

def initState : PollState := ⟨[], [], 0, 0⟩

/-- The `while (Date.now() < deadline)` loop of `pollAgents`
(lines 329-351).  `fuel` is the number of remaining iterations the
deadline allows.  Each iteration: compute pending, break if empty,
fetch all pending concurrently (logged), record terminal fulfilments,
break if everything is resolved, otherwise sleep and continue. -/
def pollLoop (fetch : Nat → String → Option Agent) (ids : List String) :
    Nat → PollState → PollState
  | 0, st => st
  | fuel+1, st =>
    let pending := ids.filter (fun jid => !mapHas st.results jid)
    if pending.isEmpty then st
    else
      let newResults := processTick (fetch st.round) pending st.results
      let st1 : PollState :=
        { results := newResults
          fetchLog := st.fetchLog ++ pending.map (fun jid => (st.round, jid))
          sleeps := st.sleeps
          round := st.round }
      if newResults.length == ids.length then st1
      else pollLoop fetch ids fuel
        { st1 with sleeps := st1.sleeps + 1, round := st1.round + 1 }

/-- The final sweep of `pollAgents` (lines 353-364): recompute the
still-pending ids, and if any remain, fetch them all once more
(logged) and record every fulfilled fetch — with no terminal check. -/
def sweepState (fetch : Nat → String → Option Agent) (ids : List String)
    (st : PollState) : PollState :=
  let stillPending := ids.filter (fun jid => !mapHas st.results jid)
  if stillPending.isEmpty then st
  else { st with
           results := processSweep (fetch st.round) stillPending st.results
           fetchLog := st.fetchLog ++ stillPending.map (fun jid => (st.round, jid)) }

/-- `pollAgents` (lines 325-367): run the polling loop, then the final
sweep, and map every requested id, in order, to its recorded record or
to the placeholder `{ id, status: "UNKNOWN" }` (line 366). -/
def pollAgents (fetch : Nat → String → Option Agent) (ids : List String)
    (fuel : Nat) : List Agent × PollState :=
  let st2 := sweepState fetch ids (pollLoop fetch ids fuel initState)
  (ids.map (fun jid => (mapGet st2.results jid).getD ⟨jid, "UNKNOWN"⟩), st2)

/-- The timeout error message of `pollAgent` (lines 312-314). -/
def timeoutMsg (jid : String) (timeoutMs : Nat) (lastStatus : String) : String :=
  "Agent " ++ jid ++ " did not reach terminal state within " ++
    toString (timeoutMs / 1000) ++ "s. Last status: " ++ lastStatus

/-- `pollAgent` (lines 296-315), single-job wait.  The oracle
`f : Nat → Except String Agent` gives the outcome of the `getAgent`
call of each round; a rejection propagates unchanged (the single-job
path has no `allSettled`).  `fuel` is the number of loop iterations
the deadline allows; the `0` case is the mandatory final check. -/
def pollAgent (f : Nat → Except String Agent) (jid : String) (timeoutMs : Nat) :
    Nat → Nat → Except String Agent
  | 0, round =>
    match f round with
    | Except.error e => Except.error e
    | Except.ok a =>
      if isTerminal a.status then Except.ok a
      else Except.error (timeoutMsg jid timeoutMs a.status)
  | fuel+1, round =>
    match f round with
    | Except.error e => Except.error e
    | Except.ok a =>
      if isTerminal a.status then Except.ok a
      else pollAgent f jid timeoutMs fuel (round+1)

/-- JS truthiness of an optional string: present and non-empty. -/
def optTruthy : Option String → Bool
  | some s => !(s == "")
  | none => false

/-- Input of `launchAgent` (images kept as opaque payloads). -/
structure LaunchParams where
  promptText : String
  promptImages : Option (List String)
  repository : String
  ref : Option String
  model : Option String
  autoCreatePr : Option Bool
  openAsCursorGithubApp : Option Bool
  skipReviewerRequest : Option Bool
  branchName : Option String
  webhookUrl : Option String
  webhookSecret : Option String
deriving DecidableEq, Repr

/-- The `target` sub-object of the launch body. -/
structure LaunchTarget where
  autoCreatePr : Option Bool
  openAsCursorGithubApp : Option Bool
  skipReviewerRequest : Option Bool
  branchName : Option String
deriving DecidableEq, Repr

/-- The `webhook` sub-object of the launch body. -/
structure WebhookBody where
  url : String
  secret : Option String
deriving DecidableEq, Repr

/-- The request body `POST /v0/agents` that `launchAgent` hands to
`request` (prompt/source flattened to their payload fields). -/
structure LaunchBody where
  promptText : String
  promptImages : Option (List String)
  repository : String
  ref : Option String
  model : Option String
  target : Option LaunchTarget
  webhook : Option WebhookBody
deriving DecidableEq, Repr

/-- `launchAgent` (lines 110-165) up to the network boundary:
`Except.ok body` means the HTTP call `POST /v0/agents` is issued with
that body; `Except.error msg` means the local validation threw before
any network call. -/
def launchAgent (p : LaunchParams) : Except String LaunchBody :=
  let images : Option (List String) :=
    match p.promptImages with
    | some l => if l.isEmpty then none else some l
    | none => none
  let target : LaunchTarget :=
    { autoCreatePr := p.autoCreatePr
      openAsCursorGithubApp := p.openAsCursorGithubApp
      skipReviewerRequest := p.skipReviewerRequest
      branchName := if optTruthy p.branchName then p.branchName else none }
  let hasTarget : Bool :=
    p.autoCreatePr.isSome || p.openAsCursorGithubApp.isSome ||
      p.skipReviewerRequest.isSome || optTruthy p.branchName
  let base : LaunchBody :=
    { promptText := p.promptText
      promptImages := images
      repository := p.repository
      ref := if optTruthy p.ref then p.ref else none
      model := if optTruthy p.model then p.model else none
      target := if hasTarget then some target else none
      webhook := none }
  match p.webhookUrl with
  | some u =>
    if u == "" then Except.ok base
    else
      match p.webhookSecret with
      | some s =>
        if s == "" then Except.ok { base with webhook := some ⟨u, none⟩ }
        else if s.length < 32 then
          Except.error "Webhook secret must be at least 32 characters"
        else Except.ok { base with webhook := some ⟨u, some s⟩ }
      | none => Except.ok { base with webhook := some ⟨u, none⟩ }
  | none => Except.ok base

/-- The parsed JSON body of an error response, restricted to the two
fields `request` reads (`message`, `error`). -/
structure ParsedBody where
  message : Option String
  error : Option String
deriving DecidableEq, Repr

/-- One HTTP exchange as seen after `fetch` resolved: status code, raw
body text, and the result of `JSON.parse(text)` (`none` when parsing
threw). -/
structure HttpExchange where
  status : Nat
  text : String
  parsed : Option ParsedBody
deriving DecidableEq, Repr

/-- The structured error thrown by `request`: `err.message`,
`err.status`, `err.body`. -/
structure ApiError where
  message : String
  status : Nat
  body : Option ParsedBody
deriving DecidableEq, Repr

/-- `response.ok`: status in the inclusive range 200-299. -/
def respOk (status : Nat) : Bool := 200 ≤ status && status ≤ 299

/-- `data?.message || data?.error || text || \x7bHTTP status\x7d`
(line 69-70), with JS string falsiness (empty string falls through). -/
def errBaseMsg (r : HttpExchange) : String :=
  if optTruthy (r.parsed.bind (fun b => b.message)) then
    (r.parsed.bind (fun b => b.message)).getD ""
  else if optTruthy (r.parsed.bind (fun b => b.error)) then
    (r.parsed.bind (fun b => b.error)).getD ""
  else if !(r.text == "") then r.text
  else "HTTP " ++ toString r.status

/-- The guidance augmentation for the well-known codes (lines 75-83). -/
def applyGuidance (status : Nat) (msg : String) : String :=
  if status == 401 then "Authentication failed: " ++ msg ++ ". Check CURSOR_API_KEY."
  else if status == 403 then "Forbidden: " ++ msg ++ ". Ensure the GitHub App is installed on this repo."
  else if status == 404 then "Not found: " ++ msg ++ ". Agent may have been deleted."
  else if status == 429 then "Rate limit exceeded: " ++ msg ++ ". Back off and retry."
  else msg

/-- `request` (lines 32-88) from the point where the response arrived:
204 returns an empty object, success returns the parsed body, anything
else throws the structured `ApiError`. -/
def request (r : HttpExchange) : Except ApiError (Option ParsedBody) :=
  if r.status == 204 then Except.ok (some ⟨none, none⟩)
  else if respOk r.status then Except.ok r.parsed
  else Except.error ⟨applyGuidance r.status (errBaseMsg r), r.status, r.parsed⟩

/-- The sub-log of fetch events of one job id. -/
def logOf (st : PollState) (X : String) : List (Nat × String) :=
  st.fetchLog.filter (fun q => q.2 == X)

/-- Oracle: every fetch fulfils with a RUNNING record (never terminal). -/
def wfetchRunning : Nat → String → Option Agent :=
  fun _ _ => some ⟨"A", "RUNNING"⟩

/-- Oracle: every fetch of id A fulfils with a FINISHED record. -/
def wfetchT : Nat → String → Option Agent :=
  fun _ _ => some ⟨"A", "FINISHED"⟩

/-- Oracle: every fetch of any id fulfils with a FINISHED record for
that id. -/
def wfetchT2 : Nat → String → Option Agent :=
  fun _ jid => some ⟨jid, "FINISHED"⟩

/-- Oracle: every fetch rejects. -/
def wfetchNone : Nat → String → Option Agent := fun _ _ => none

/-- A state in which id A is already resolved. -/
def wstres : PollState := ⟨[("A", ⟨"A", "FINISHED"⟩)], [], 0, 0⟩

/-- Single-job status trace: RUNNING except at round 1, where it is
FINISHED. -/
def wg : Nat → Agent :=
  fun n => if n == 1 then ⟨"A", "FINISHED"⟩ else ⟨"A", "RUNNING"⟩

/-- Launch parameters with a too-short webhook secret but no webhook
URL. -/
def c4NoUrlParams : LaunchParams :=
  { promptText := "task", promptImages := none,
    repository := "https://github.com/acme/app", ref := none, model := none,
    autoCreatePr := none, openAsCursorGithubApp := none,
    skipReviewerRequest := none, branchName := none, webhookUrl := none,
    webhookSecret := some "short" }

/-- Launch parameters with a webhook URL and a too-short secret. -/
def c4UrlParams : LaunchParams :=
  { promptText := "task", promptImages := none,
    repository := "https://github.com/acme/app", ref := none, model := none,
    autoCreatePr := none, openAsCursorGithubApp := none,
    skipReviewerRequest := none, branchName := none,
    webhookUrl := some "https://hooks.example.com/x",
    webhookSecret := some "tooShortSecret" }

/-- A 404 exchange whose parsed body carries a message field. -/
def c9Exchange : HttpExchange :=
  ⟨404, "Agent not found", some ⟨some "Agent not found", none⟩⟩

theorem mapHas_nil (k : String) : mapHas [] k = false := rfl

theorem mapHas_cons (p : String × Agent) (m : ResultsMap) (k : String) :
    mapHas (p :: m) k = ((p.1 == k) || mapHas m k) := by
  simp [mapHas, List.any_cons]

theorem mapGet_cons (p : String × Agent) (m : ResultsMap) (k : String) :
    mapGet (p :: m) k = if p.1 == k then some p.2 else mapGet m k := by
  by_cases h : p.1 == k <;> simp [mapGet, List.find?_cons, h]

theorem mapHas_eq_isSome (m : ResultsMap) (k : String) :
    mapHas m k = (mapGet m k).isSome := by
  induction m with
  | nil => rfl
  | cons p m ih =>
    rw [mapHas_cons, mapGet_cons]
    by_cases h : p.1 == k <;> simp [h, ih]

theorem mapGet_none_iff (m : ResultsMap) (k : String) :
    mapGet m k = none ↔ mapHas m k = false := by
  rw [mapHas_eq_isSome]
  cases h : mapGet m k <;> simp [h]

theorem mem_of_mapGet_eq_some {m : ResultsMap} {k : String} {v : Agent}
    (h : mapGet m k = some v) : (k, v) ∈ m := by
  induction m with
  | nil => simp [mapGet] at h
  | cons p m ih =>
    rw [mapGet_cons] at h
    by_cases hp : (p.1 == k) = true
    · have hk : p.1 = k := eq_of_beq hp
      simp only [hp, if_true, Option.some.injEq] at h
      rw [List.mem_cons]
      left
      rw [← hk, ← h]
    · simp only [hp, if_false] at h
      exact List.mem_cons.2 (Or.inr (ih h))

theorem mapGet_mapSet_self (m : ResultsMap) (k : String) (v : Agent) :
    mapGet (mapSet m k v) k = some v := by
  induction m with
  | nil => simp [mapSet, mapGet_cons]
  | cons p m ih =>
    by_cases hp : (p.1 == k) = true
    · simp [mapSet, hp, mapGet_cons]
    · simp [mapSet, hp, mapGet_cons, ih]

theorem mapGet_mapSet_ne (m : ResultsMap) (k k' : String) (v : Agent)
    (h : k' ≠ k) :
    mapGet (mapSet m k v) k' = mapGet m k' := by
  have hkk : (k == k') = false := by
    simpa using fun hkk => h hkk.symm
  induction m with
  | nil => simp [mapSet, mapGet_cons, mapGet, hkk]
  | cons p m ih =>
    by_cases hp : (p.1 == k) = true
    · have hpk : p.1 = k := eq_of_beq hp
      have hp' : (p.1 == k') = false := by rw [hpk]; exact hkk
      simp [mapSet, hp, mapGet_cons, hkk, hp']
    · simp [mapSet, hp, mapGet_cons, ih]

theorem mapHas_mapSet_self (m : ResultsMap) (k : String) (v : Agent) :
    mapHas (mapSet m k v) k = true := by
  rw [mapHas_eq_isSome, mapGet_mapSet_self]
  rfl

theorem mapHas_mapSet_ne (m : ResultsMap) (k k' : String) (v : Agent)
    (h : k' ≠ k) :
    mapHas (mapSet m k v) k' = mapHas m k' := by
  rw [mapHas_eq_isSome, mapHas_eq_isSome, mapGet_mapSet_ne m k k' v h]

theorem mem_mapSet {m : ResultsMap} {k : String} {v : Agent} {q : String × Agent}
    (h : q ∈ mapSet m k v) : q ∈ m ∨ q = (k, v) := by
  induction m with
  | nil => simp [mapSet] at h; exact Or.inr h
  | cons p m ih =>
    by_cases hp : (p.1 == k) = true
    · simp only [mapSet, hp, if_true] at h
      rcases List.mem_cons.1 h with h1 | h1
      · exact Or.inr h1
      · exact Or.inl (List.mem_cons.2 (Or.inr h1))
    · simp only [mapSet, hp, if_false] at h
      rcases List.mem_cons.1 h with h1 | h1
      · exact Or.inl (List.mem_cons.2 (Or.inl h1))
      · rcases ih h1 with h2 | h2
        · exact Or.inl (List.mem_cons.2 (Or.inr h2))
        · exact Or.inr h2

theorem length_mapSet_of_not_has {m : ResultsMap} {k : String} (v : Agent)
    (h : mapHas m k = false) :
    (mapSet m k v).length = m.length + 1 := by
  induction m with
  | nil => rfl
  | cons p m ih =>
    rw [mapHas_cons] at h
    have hp : (p.1 == k) = false := by
      cases hpk : p.1 == k <;> simp_all
    have hm : mapHas m k = false := by
      cases hmk : mapHas m k <;> simp_all
    simp [mapSet, hp, ih hm]

theorem processTick_nil (f : String → Option Agent) (res : ResultsMap) :
    processTick f [] res = res := rfl

theorem processTick_cons (f : String → Option Agent) (y : String)
    (p : List String) (res : ResultsMap) :
    processTick f (y :: p) res =
      processTick f p
        (match f y with
         | some a => if isTerminal a.status then mapSet res y a else res
         | none => res) := rfl

theorem processSweep_nil (f : String → Option Agent) (res : ResultsMap) :
    processSweep f [] res = res := rfl

theorem processSweep_cons (f : String → Option Agent) (y : String)
    (p : List String) (res : ResultsMap) :
    processSweep f (y :: p) res =
      processSweep f p
        (match f y with
         | some a => mapSet res y a
         | none => res) := rfl

theorem tick_get_fetch_none {f : String → Option Agent} {p : List String}
    {X : String} (h : f X = none) (res : ResultsMap) :
    mapGet (processTick f p res) X = mapGet res X := by
  induction p generalizing res with
  | nil => rfl
  | cons y p ih =>
    rw [processTick_cons]
    rcases hy : f y with _ | a
    · simp only [hy]
      exact ih res
    · have hyX : X ≠ y := by
        intro e
        rw [e, hy] at h
        exact Option.noConfusion h
      simp only [hy]
      by_cases ht : isTerminal a.status = true
      · simp only [ht, if_true]
        rw [ih (mapSet res y a), mapGet_mapSet_ne res y X a hyX]
      · simp only [ht, if_false]
        exact ih res

theorem tick_get_not_mem {f : String → Option Agent} {p : List String}
    {X : String} (h : X ∉ p) (res : ResultsMap) :
    mapGet (processTick f p res) X = mapGet res X := by
  induction p generalizing res with
  | nil => rfl
  | cons y p ih =>
    have hyX : X ≠ y := fun e => h (e ▸ List.mem_cons_self y p)
    have hXp : X ∉ p := fun hm => h (List.mem_cons.2 (Or.inr hm))
    rw [processTick_cons]
    rcases hy : f y with _ | a
    · exact ih hXp res
    · by_cases ht : isTerminal a.status = true
      · simp only [ht, if_true]
        rw [ih hXp (mapSet res y a), mapGet_mapSet_ne res y X a hyX]
      · simp only [ht, if_false]
        exact ih hXp res

theorem tick_get_terminal_mem {f : String → Option Agent} {p : List String}
    {X : String} {a : Agent} (hmem : X ∈ p) (hf : f X = some a)
    (ht : isTerminal a.status = true) (res : ResultsMap) :
    mapGet (processTick f p res) X = some a := by
  induction p generalizing res with
  | nil => exact absurd hmem (List.not_mem_nil X)
  | cons y p ih =>
    by_cases hXp : X ∈ p
    · rw [processTick_cons]
      exact ih hXp _
    · have hXy : X = y := by
        rcases List.mem_cons.1 hmem with h1 | h1
        · exact h1
        · exact absurd h1 hXp
      subst hXy
      rw [processTick_cons, hf]
      simp only [ht, if_true]
      rw [tick_get_not_mem hXp (mapSet res X a), mapGet_mapSet_self]

theorem tick_has_fetch_none {f : String → Option Agent} {p : List String}
    {X : String} (h : f X = none) (res : ResultsMap) :
    mapHas (processTick f p res) X = mapHas res X := by
  rw [mapHas_eq_isSome, mapHas_eq_isSome, tick_get_fetch_none h res]

theorem tick_has_terminal_mem {f : String → Option Agent} {p : List String}
    {X : String} {a : Agent} (hmem : X ∈ p) (hf : f X = some a)
    (ht : isTerminal a.status = true) (res : ResultsMap) :
    mapHas (processTick f p res) X = true := by
  rw [mapHas_eq_isSome, tick_get_terminal_mem hmem hf ht res]
  rfl

theorem tick_has_mono {f : String → Option Agent} {p : List String}
    {X : String} {res : ResultsMap} (h : mapHas res X = true) :
    mapHas (processTick f p res) X = true := by
  induction p generalizing res with
  | nil => exact h
  | cons y p ih =>
    rw [processTick_cons]
    rcases hy : f y with _ | a
    · exact ih h
    · by_cases ht : isTerminal a.status = true
      · simp only [ht, if_true]
        by_cases hXy : X = y
        · subst hXy
          exact ih (mapHas_mapSet_self res X a)
        · exact ih (by rw [mapHas_mapSet_ne res y X a hXy]; exact h)
      · simp only [ht, if_false]
        exact ih h

/-- Every record stored during a tick has a terminal status. -/
theorem tick_terminal_invariant {f : String → Option Agent} {p : List String}
    {res : ResultsMap} (h : ∀ q ∈ res, isTerminal q.2.status = true) :
    ∀ q ∈ processTick f p res, isTerminal q.2.status = true := by
  induction p generalizing res with
  | nil => exact h
  | cons y p ih =>
    rw [processTick_cons]
    rcases hy : f y with _ | a
    · exact ih h
    · by_cases ht : isTerminal a.status = true
      · simp only [ht, if_true]
        refine ih (fun q hq => ?_)
        rcases mem_mapSet hq with h1 | h1
        · exact h q h1
        · rw [h1]
          exact ht
      · simp only [ht, if_false]
        exact ih h

/-- When every pending id fetches a terminal record, the tick records
exactly one new entry per pending id. -/
theorem tick_length_full {f : String → Option Agent} {p : List String}
    (hnd : p.Nodup) (res : ResultsMap)
    (hfree : ∀ y ∈ p, mapHas res y = false)
    (hterm : ∀ y ∈ p, ∃ a, f y = some a ∧ isTerminal a.status = true) :
    (processTick f p res).length = res.length + p.length := by
  induction p generalizing res with
  | nil => rfl
  | cons y p ih =>
    obtain ⟨a, ha, hta⟩ := hterm y (List.mem_cons_self y p)
    have hynotp : y ∉ p := (List.nodup_cons.1 hnd).1
    have hndp : p.Nodup := (List.nodup_cons.1 hnd).2
    rw [processTick_cons, ha]
    simp only [hta, if_true]
    have hlen : (mapSet res y a).length = res.length + 1 :=
      length_mapSet_of_not_has a (hfree y (List.mem_cons_self y p))
    have hfree' : ∀ z ∈ p, mapHas (mapSet res y a) z = false := by
      intro z hz
      have hzy : z ≠ y := fun e => hynotp (e ▸ hz)
      rw [mapHas_mapSet_ne res y z a hzy]
      exact hfree z (List.mem_cons.2 (Or.inr hz))
    rw [ih hndp (mapSet res y a) hfree'
      (fun z hz => hterm z (List.mem_cons.2 (Or.inr hz))), hlen]
    simp only [List.length_cons]
    omega

theorem sweep_get_cases (f : String → Option Agent) (p : List String)
    (X : String) (res : ResultsMap) :
    mapGet (processSweep f p res) X = mapGet res X ∨
      mapGet (processSweep f p res) X = f X := by
  induction p generalizing res with
  | nil => exact Or.inl rfl
  | cons y p ih =>
    rw [processSweep_cons]
    rcases hy : f y with _ | a
    · exact ih res
    · rcases ih (mapSet res y a) with h | h
      · by_cases hXy : X = y
        · subst hXy
          rw [mapGet_mapSet_self] at h
          exact Or.inr (h.trans hy.symm)
        · rw [mapGet_mapSet_ne res y X a hXy] at h
          exact Or.inl h
      · exact Or.inr h

theorem sweep_get_fetch_none {f : String → Option Agent} {p : List String}
    {X : String} (h : f X = none) (res : ResultsMap) :
    mapGet (processSweep f p res) X = mapGet res X := by
  induction p generalizing res with
  | nil => rfl
  | cons y p ih =>
    rw [processSweep_cons]
    rcases hy : f y with _ | a
    · exact ih res
    · have hyX : X ≠ y := by
        intro e
        rw [e, hy] at h
        exact Option.noConfusion h
      rw [ih (mapSet res y a), mapGet_mapSet_ne res y X a hyX]

theorem sweep_has_fetch_none {f : String → Option Agent} {p : List String}
    {X : String} (h : f X = none) (res : ResultsMap) :
    mapHas (processSweep f p res) X = mapHas res X := by
  rw [mapHas_eq_isSome, mapHas_eq_isSome, sweep_get_fetch_none h res]

theorem pollLoop_zero (fetch : Nat → String → Option Agent) (ids : List String)
    (st : PollState) : pollLoop fetch ids 0 st = st := rfl

theorem pollLoop_succ (fetch : Nat → String → Option Agent) (ids : List String)
    (fuel : Nat) (st : PollState) :
    pollLoop fetch ids (fuel+1) st =
      (let pending := ids.filter (fun jid => !mapHas st.results jid)
       if pending.isEmpty then st
       else
         let newResults := processTick (fetch st.round) pending st.results
         let st1 : PollState :=
           { results := newResults
             fetchLog := st.fetchLog ++ pending.map (fun jid => (st.round, jid))
             sleeps := st.sleeps
             round := st.round }
         if newResults.length == ids.length then st1
         else pollLoop fetch ids fuel
           { st1 with sleeps := st1.sleeps + 1, round := st1.round + 1 }) := by
  rw [pollLoop]

theorem pollLoop_nil_ids (fetch : Nat → String → Option Agent) (fuel : Nat)
    (st : PollState) : pollLoop fetch [] fuel st = st := by
  cases fuel with
  | zero => rfl
  | succ fuel => rw [pollLoop_succ]; rfl

/-- A session whose requested ids are all already resolved breaks out
of the loop at once: no fetch, no sleep, state unchanged. -/
theorem pollLoop_fully_resolved {fetch : Nat → String → Option Agent}
    {ids : List String} {st : PollState} (fuel : Nat)
    (h : ∀ jid ∈ ids, mapHas st.results jid = true) :
    pollLoop fetch ids fuel st = st := by
  cases fuel with
  | zero => rfl
  | succ fuel =>
    have hp : ids.filter (fun jid => !mapHas st.results jid) = [] := by
      apply List.filter_eq_nil_iff.2
      intro a ha
      simp [h a ha]
    rw [pollLoop_succ]
    simp only [hp]
    rfl

/-- Resolution is permanent across the rest of the loop. -/
theorem pollLoop_has_mono (fetch : Nat → String → Option Agent)
    (ids : List String) (X : String) :
    ∀ (fuel : Nat) (st : PollState), mapHas st.results X = true →
      mapHas (pollLoop fetch ids fuel st).results X = true := by
  intro fuel
  induction fuel with
  | zero => intro st h; exact h
  | succ fuel ih =>
    intro st h
    rw [pollLoop_succ]
    dsimp only
    split
    · exact h
    · split
      · exact tick_has_mono h
      · exact ih _ (tick_has_mono h)

/-- An id that is already resolved is never fetched again by the rest
of the loop: its fetch-event log does not grow. -/
theorem pollLoop_no_refetch (fetch : Nat → String → Option Agent)
    (ids : List String) (X : String) :
    ∀ (fuel : Nat) (st : PollState), mapHas st.results X = true →
      logOf (pollLoop fetch ids fuel st) X = logOf st X := by
  intro fuel
  induction fuel with
  | zero => intro st h; rfl
  | succ fuel ih =>
    intro st h
    rw [pollLoop_succ]
    dsimp only
    split
    · rfl
    · have hXpend : X ∉ ids.filter (fun jid => !mapHas st.results jid) := by
        intro hm
        have h2 := (List.mem_filter.1 hm).2
        rw [h] at h2
        simp at h2
      have hmap :
          ((ids.filter (fun jid => !mapHas st.results jid)).map
            (fun jid => (st.round, jid))).filter (fun q => q.2 == X) = [] := by
        apply List.filter_eq_nil_iff.2
        intro q hq
        rcases List.mem_map.1 hq with ⟨jid, hjid, rfl⟩
        simp only [decide_eq_true_eq]
        intro hbe
        exact hXpend ((eq_of_beq hbe) ▸ hjid)
      split
      · simp only [logOf, List.filter_append, hmap, List.append_nil]
      · rw [ih _ (tick_has_mono h)]
        simp only [logOf, List.filter_append, hmap, List.append_nil]

/-- A job whose fetches always reject never enters the resolved map
during the loop. -/
theorem pollLoop_fetch_none (fetch : Nat → String → Option Agent)
    (ids : List String) (X : String) (hfX : ∀ r, fetch r X = none) :
    ∀ (fuel : Nat) (st : PollState),
      mapHas (pollLoop fetch ids fuel st).results X = mapHas st.results X := by
  intro fuel
  induction fuel with
  | zero => intro st; rfl
  | succ fuel ih =>
    intro st
    rw [pollLoop_succ]
    dsimp only
    split
    · rfl
    · split
      · exact tick_has_fetch_none (hfX st.round) _
      · rw [ih _]
        exact tick_has_fetch_none (hfX st.round) _

/-- Everything the loop ever stores in the resolved map has a terminal
status. -/
theorem pollLoop_terminal_invariant (fetch : Nat → String → Option Agent)
    (ids : List String) :
    ∀ (fuel : Nat) (st : PollState),
      (∀ q ∈ st.results, isTerminal q.2.status = true) →
      ∀ q ∈ (pollLoop fetch ids fuel st).results, isTerminal q.2.status = true := by
  intro fuel
  induction fuel with
  | zero => intro st h; exact h
  | succ fuel ih =>
    intro st h
    rw [pollLoop_succ]
    dsimp only
    split
    · exact h
    · split
      · exact tick_terminal_invariant h
      · exact ih _ (tick_terminal_invariant h)

theorem sweepState_fetchLog (fetch : Nat → String → Option Agent)
    (ids : List String) (st : PollState) :
    (sweepState fetch ids st).fetchLog =
      st.fetchLog ++
        (ids.filter (fun jid => !mapHas st.results jid)).map
          (fun jid => (st.round, jid)) := by
  unfold sweepState
  dsimp only
  split
  · rename_i he
    rw [List.isEmpty_iff] at he
    rw [he]
    simp
  · rfl

theorem sweepState_of_all_resolved {fetch : Nat → String → Option Agent}
    {ids : List String} {st : PollState}
    (h : ∀ jid ∈ ids, mapHas st.results jid = true) :
    sweepState fetch ids st = st := by
  have hp : ids.filter (fun jid => !mapHas st.results jid) = [] := by
    apply List.filter_eq_nil_iff.2
    intro a ha
    simp [h a ha]
  unfold sweepState
  rw [hp]
  rfl

theorem sweepState_get_cases (fetch : Nat → String → Option Agent)
    (ids : List String) (st : PollState) (X : String) :
    mapGet (sweepState fetch ids st).results X = mapGet st.results X ∨
      mapGet (sweepState fetch ids st).results X = fetch st.round X := by
  unfold sweepState
  dsimp only
  split
  · exact Or.inl rfl
  · exact sweep_get_cases (fetch st.round) _ X st.results

theorem sweepState_has_none {fetch : Nat → String → Option Agent}
    {ids : List String} {st : PollState} {X : String}
    (hfX : ∀ r, fetch r X = none) :
    mapHas (sweepState fetch ids st).results X = mapHas st.results X := by
  unfold sweepState
  dsimp only
  split
  · rfl
  · exact sweep_has_fetch_none (hfX st.round) st.results

/-- A resolved id is not fetched by the final sweep. -/
theorem sweepState_resolved_log {fetch : Nat → String → Option Agent}
    {ids : List String} {st : PollState} {X : String}
    (h : mapHas st.results X = true) :
    logOf (sweepState fetch ids st) X = logOf st X := by
  have hXpend : X ∉ ids.filter (fun jid => !mapHas st.results jid) := by
    intro hm
    have h2 := (List.mem_filter.1 hm).2
    rw [h] at h2
    simp at h2
  have hmap :
      ((ids.filter (fun jid => !mapHas st.results jid)).map
        (fun jid => (st.round, jid))).filter (fun q => q.2 == X) = [] := by
    apply List.filter_eq_nil_iff.2
    intro q hq
    rcases List.mem_map.1 hq with ⟨jid, hjid, rfl⟩
    simp only [decide_eq_true_eq]
    intro hbe
    exact hXpend ((eq_of_beq hbe) ▸ hjid)
  unfold logOf
  rw [show (sweepState fetch ids st).fetchLog =
        st.fetchLog ++
          (ids.filter (fun jid => !mapHas st.results jid)).map
            (fun jid => (st.round, jid)) from sweepState_fetchLog fetch ids st,
     List.filter_append, hmap, List.append_nil]

theorem pollAgents_fst (fetch : Nat → String → Option Agent)
    (ids : List String) (fuel : Nat) :
    (pollAgents fetch ids fuel).1 =
      ids.map (fun jid =>
        (mapGet (pollAgents fetch ids fuel).2.results jid).getD
          ⟨jid, "UNKNOWN"⟩) := rfl

theorem pollAgents_snd (fetch : Nat → String → Option Agent)
    (ids : List String) (fuel : Nat) :
    (pollAgents fetch ids fuel).2 =
      sweepState fetch ids (pollLoop fetch ids fuel initState) := rfl

/-- C10: calling pollAgents with an empty ID list returns an empty
result list immediately, performing no network fetch and no sleep (the
final state equals the initial one: empty fetch log, zero sleeps). -/
theorem pollAgents_empty_ids (fetch : Nat → String → Option Agent) (fuel : Nat) :
    pollAgents fetch [] fuel = ([], initState) := by
  unfold pollAgents
  rw [pollLoop_nil_ids]
  rfl

/-- C1 counterexample: with a job that always fetches successfully as
RUNNING and a deadline of one tick, the final sweep promotes the
non-terminal RUNNING record, so the result contains a record that is
neither terminal nor the UNKNOWN placeholder. -/
theorem pollAgents_sweep_promotes_nonterminal :
    (pollAgents wfetchRunning ["A"] 1).1 = [⟨"A", "RUNNING"⟩] ∧
      isTerminal "RUNNING" = false ∧
      Agent.mk "A" "RUNNING" ≠ ⟨"A", "UNKNOWN"⟩ := by
  refine ⟨by decide, by decide, by decide⟩

/-- C1 (amended): every entry of the final result is either a record
with terminal status (resolved during the tick loop), or the synthetic
UNKNOWN placeholder for its id, or a record fetched — regardless of
status — by the final sweep after the deadline: the sweep promotes any
fulfilled fetch, terminal or not. -/
theorem pollAgents_result_classification (fetch : Nat → String → Option Agent)
    (ids : List String) (fuel : Nat) (i : Nat) (jid : String) (a : Agent)
    (hid : ids[i]? = some jid)
    (hout : ((pollAgents fetch ids fuel).1)[i]? = some a) :
    isTerminal a.status = true ∨ a = ⟨jid, "UNKNOWN"⟩ ∨
      fetch (pollLoop fetch ids fuel initState).round jid = some a := by
  rw [pollAgents_fst, List.getElem?_map, hid, Option.map_some'] at hout
  have hsnd :
      (pollAgents fetch ids fuel).2 =
        sweepState fetch ids (pollLoop fetch ids fuel initState) :=
    pollAgents_snd fetch ids fuel
  rw [hsnd] at hout
  cases hg : mapGet (sweepState fetch ids
      (pollLoop fetch ids fuel initState)).results jid with
  | none =>
    rw [hg] at hout
    refine Or.inr (Or.inl ?_)
    have : Agent.mk jid "UNKNOWN" = a := by
      simpa using hout
    exact this.symm
  | some b =>
    rw [hg] at hout
    have hba : b = a := by simpa using hout
    subst hba
    rcases sweepState_get_cases fetch ids (pollLoop fetch ids fuel initState) jid
      with h | h
    · rw [hg] at h
      have hmem : (jid, b) ∈ (pollLoop fetch ids fuel initState).results :=
        mem_of_mapGet_eq_some h.symm
      have hterm := pollLoop_terminal_invariant fetch ids fuel initState
        (fun q hq => absurd hq (List.not_mem_nil q)) (jid, b) hmem
      exact Or.inl hterm
    · rw [hg] at h
      exact Or.inr (Or.inr h.symm)

/-- C1 witness: instantiating the classification at a concrete
one-job session that resolves on the first tick. -/
theorem pollAgents_result_classification_witness :
    isTerminal (Agent.mk "A" "FINISHED").status = true ∨
      Agent.mk "A" "FINISHED" = ⟨"A", "UNKNOWN"⟩ ∨
      wfetchT (pollLoop wfetchT ["A"] 1 initState).round "A" =
        some ⟨"A", "FINISHED"⟩ :=
  pollAgents_result_classification wfetchT ["A"] 1 0 "A" ⟨"A", "FINISHED"⟩
    (by decide) (by decide)

/-- C2: the result has exactly one entry per originally requested ID,
in original request order — entry i is determined by ids i alone: the
record resolved for that id, or the UNKNOWN placeholder carrying that
id when it never resolved; the operation is total (returns normally). -/
theorem pollAgents_order_and_coverage (fetch : Nat → String → Option Agent)
    (ids : List String) (fuel : Nat) :
    ((pollAgents fetch ids fuel).1).length = ids.length ∧
    ∀ (i : Nat) (jid : String), ids[i]? = some jid →
      ∃ a, ((pollAgents fetch ids fuel).1)[i]? = some a ∧
        (mapGet (pollAgents fetch ids fuel).2.results jid = some a ∨
          a = ⟨jid, "UNKNOWN"⟩) := by
  constructor
  · rw [pollAgents_fst]
    exact List.length_map _ _
  · intro i jid hj
    rw [pollAgents_fst, List.getElem?_map, hj, Option.map_some']
    refine ⟨(mapGet (pollAgents fetch ids fuel).2.results jid).getD
      ⟨jid, "UNKNOWN"⟩, rfl, ?_⟩
    cases hg : mapGet (pollAgents fetch ids fuel).2.results jid with
    | none => exact Or.inr rfl
    | some b => exact Or.inl rfl

/-- C2 witness: the coverage property instantiated at a concrete
session. -/
theorem pollAgents_order_and_coverage_witness :
    ∃ a, ((pollAgents wfetchT ["A"] 1).1)[0]? = some a ∧
      (mapGet (pollAgents wfetchT ["A"] 1).2.results "A" = some a ∨
        a = ⟨"A", "UNKNOWN"⟩) :=
  (pollAgents_order_and_coverage wfetchT ["A"] 1).2 0 "A" rfl

/-- C3: a rejected fetch of job X in a tick leaves X exactly as
pending as before (retried later), sibling jobs whose fetches fulfil
with terminal records are still recorded in that same tick, and a job
whose fetches reject on every round — final sweep included — ends
mapped to the UNKNOWN placeholder while the operation still returns. -/
theorem pollAgents_failure_isolation (f : String → Option Agent)
    (pending : List String) (res : ResultsMap) (X : String)
    (fetch : Nat → String → Option Agent) (ids : List String) (fuel i : Nat) :
    (f X = none → mapHas (processTick f pending res) X = mapHas res X) ∧
    (∀ Y a, Y ∈ pending → f Y = some a → isTerminal a.status = true →
      mapGet (processTick f pending res) Y = some a) ∧
    ((∀ r, fetch r X = none) → ids[i]? = some X →
      ((pollAgents fetch ids fuel).1)[i]? = some (Agent.mk X "UNKNOWN")) := by
  refine ⟨fun h => tick_has_fetch_none h res,
    fun Y a hm hf ht => tick_get_terminal_mem hm hf ht res,
    fun hfX hid => ?_⟩
  have h1 : mapHas (pollLoop fetch ids fuel initState).results X = false := by
    rw [pollLoop_fetch_none fetch ids X hfX fuel initState]
    rfl
  have h2 : mapHas ((pollAgents fetch ids fuel).2).results X = false := by
    rw [pollAgents_snd, sweepState_has_none hfX]
    exact h1
  have h3 : mapGet ((pollAgents fetch ids fuel).2).results X = none :=
    (mapGet_none_iff _ _).2 h2
  rw [pollAgents_fst, List.getElem?_map, hid, Option.map_some', h3]
  rfl

/-- C3 witness: a job whose fetches always reject ends as the UNKNOWN
placeholder. -/
theorem pollAgents_failure_isolation_witness :
    ((pollAgents wfetchNone ["A"] 2).1)[0]? = some (Agent.mk "A" "UNKNOWN") :=
  (pollAgents_failure_isolation (fun _ => none) [] [] "A" wfetchNone ["A"] 2 0).2.2
    (fun _ => rfl) rfl

/-- C6: a status string is terminal exactly when it is FINISHED,
STOPPED or FAILED; CREATING, RUNNING and every unknown label are
non-terminal (the job keeps being polled); a job whose fetch is
observed terminal during a tick enters the resolved map, a resolved
job is never fetched again by the remaining loop iterations, and a job
resolved at the end of the loop is not fetched by the final sweep. -/
theorem terminal_status_spec (s : String) (f : String → Option Agent)
    (pending : List String) (res : ResultsMap) (X : String) (a : Agent)
    (fetch : Nat → String → Option Agent) (ids : List String) (fuel : Nat)
    (st : PollState) :
    (isTerminal s = true ↔ (s = "FINISHED" ∨ s = "STOPPED" ∨ s = "FAILED")) ∧
    (isTerminal "CREATING" = false ∧ isTerminal "RUNNING" = false) ∧
    (X ∈ pending → f X = some a → isTerminal a.status = true →
      mapHas (processTick f pending res) X = true) ∧
    (mapHas st.results X = true →
      logOf (pollLoop fetch ids fuel st) X = logOf st X ∧
      mapHas (pollLoop fetch ids fuel st).results X = true) ∧
    (mapHas (pollLoop fetch ids fuel initState).results X = true →
      logOf (pollAgents fetch ids fuel).2 X =
        logOf (pollLoop fetch ids fuel initState) X) := by
  refine ⟨?_, ⟨by decide, by decide⟩,
    fun hm hf ht => tick_has_terminal_mem hm hf ht res,
    fun h => ⟨pollLoop_no_refetch fetch ids X fuel st h,
      pollLoop_has_mono fetch ids X fuel st h⟩,
    fun h => ?_⟩
  · simp [isTerminal, TERMINAL_STATUSES, List.contains, List.elem_cons]
  · rw [pollAgents_snd]
    exact sweepState_resolved_log h

/-- C6 witness: a terminal observation of A on a tick resolves A. -/
theorem terminal_status_spec_witness :
    mapHas (processTick (fun _ => some ⟨"A", "FINISHED"⟩) ["A"] []) "A" = true :=
  (terminal_status_spec "FINISHED" (fun _ => some ⟨"A", "FINISHED"⟩) ["A"] []
    "A" ⟨"A", "FINISHED"⟩ wfetchNone [] 0 initState).2.2.1
    (by decide) rfl (by decide)

/-- C8: once an ID is in the resolved mapping it is never fetched
again within the session: a state with every requested id resolved
exits the loop at once with no fetch and no sleep; a resolved id's
fetch log does not grow over the remaining loop iterations; and the
final sweep fetches exactly the ids not in the resolved mapping when
the loop ended. -/
theorem pollAgents_idempotent_resolution (fetch : Nat → String → Option Agent)
    (ids : List String) (fuel : Nat) (st : PollState) (X : String) :
    ((∀ jid ∈ ids, mapHas st.results jid = true) →
      pollLoop fetch ids fuel st = st) ∧
    (mapHas st.results X = true →
      logOf (pollLoop fetch ids fuel st) X = logOf st X) ∧
    ((pollAgents fetch ids fuel).2.fetchLog =
      (pollLoop fetch ids fuel initState).fetchLog ++
        (ids.filter (fun jid =>
          !mapHas (pollLoop fetch ids fuel initState).results jid)).map
          (fun jid => ((pollLoop fetch ids fuel initState).round, jid))) := by
  refine ⟨fun h => pollLoop_fully_resolved fuel h,
    fun h => pollLoop_no_refetch fetch ids X fuel st h, ?_⟩
  rw [pollAgents_snd]
  exact sweepState_fetchLog fetch ids (pollLoop fetch ids fuel initState)

/-- C8 witness: a loop started with its only id already resolved
returns the state unchanged. -/
theorem pollAgents_idempotent_resolution_witness :
    pollLoop wfetchT ["A"] 3 wstres = wstres :=
  (pollAgents_idempotent_resolution wfetchT ["A"] 3 wstres "A").1 (by decide)

/-- C7 counterexample: with the duplicate-containing list
`["A", "A"]` and every first fetch terminal, the tick records one map
entry for the two requested entries, so the size check fails and the
session sleeps once and fetches the id twice — not one fetch per ID
and zero sleeps. -/
theorem pollAgents_duplicate_ids_sleep :
    (["A", "A"] : List String) ≠ [] ∧
      wfetchT 0 "A" = some ⟨"A", "FINISHED"⟩ ∧
      isTerminal "FINISHED" = true ∧
      (pollAgents wfetchT ["A", "A"] 5).2.sleeps = 1 ∧
      (pollAgents wfetchT ["A", "A"] 5).2.fetchLog = [(0, "A"), (0, "A")] := by
  refine ⟨by decide, rfl, by decide, by decide, by decide⟩

/-- C7 (amended): for every non-empty list of pairwise-distinct IDs
whose first fetches all succeed with terminal statuses, pollAgents
returns after the single first tick, with exactly one fetch per ID
(all at round 0, in request order) and zero sleeps. -/
theorem pollAgents_first_tick_spec (fetch : Nat → String → Option Agent)
    (ids : List String) (fuel : Nat)
    (hne : ids ≠ []) (hnd : ids.Nodup) (hfuel : 1 ≤ fuel)
    (hterm : ∀ jid ∈ ids, ∃ a, fetch 0 jid = some a ∧
      isTerminal a.status = true) :
    (pollAgents fetch ids fuel).2.fetchLog = ids.map (fun jid => (0, jid)) ∧
    (pollAgents fetch ids fuel).2.sleeps = 0 := by
  obtain ⟨n, rfl⟩ : ∃ n, fuel = n + 1 := ⟨fuel - 1, by omega⟩
  have hpend : ids.filter (fun jid => !mapHas [] jid) = ids :=
    List.filter_eq_self.2 (fun a ha => rfl)
  have hie : ids.isEmpty = false := by
    cases ids with
    | nil => exact absurd rfl hne
    | cons y l => rfl
  have hlen : (processTick (fetch 0) ids []).length = ids.length := by
    have h := tick_length_full (f := fetch 0) hnd [] (fun y hy => rfl) hterm
    simpa using h
  have hloop : pollLoop fetch ids (n+1) initState =
      { results := processTick (fetch 0) ids []
        fetchLog := ids.map (fun jid => (0, jid))
        sleeps := 0
        round := 0 } := by
    rw [pollLoop_succ]
    dsimp only [initState]
    rw [hpend]
    have hbeq : ((processTick (fetch 0) ids []).length == ids.length) = true := by
      simp [hlen]
    simp only [hie, Bool.false_eq_true, if_false, hbeq, if_true,
      List.nil_append]
  have hres : ∀ jid ∈ ids, mapHas (processTick (fetch 0) ids []) jid = true := by
    intro jid hjid
    obtain ⟨a, ha, hta⟩ := hterm jid hjid
    exact tick_has_terminal_mem hjid ha hta []
  have hsw : sweepState fetch ids (pollLoop fetch ids (n+1) initState) =
      pollLoop fetch ids (n+1) initState := by
    apply sweepState_of_all_resolved
    rw [hloop]
    exact hres
  constructor
  · rw [pollAgents_snd, hsw, hloop]
  · rw [pollAgents_snd, hsw, hloop]

/-- C7 witness: a concrete two-job session where both first fetches
are terminal resolves with one round-0 fetch per id and no sleep. -/
theorem pollAgents_first_tick_spec_witness :
    (pollAgents wfetchT2 ["A", "B"] 5).2.fetchLog =
        ["A", "B"].map (fun jid => ((0 : Nat), jid)) ∧
      (pollAgents wfetchT2 ["A", "B"] 5).2.sleeps = 0 :=
  pollAgents_first_tick_spec wfetchT2 ["A", "B"] 5 (by decide) (by decide)
    (by decide) (fun jid hjid => ⟨⟨jid, "FINISHED"⟩, rfl, rfl⟩)

/-- With fetches that all succeed, the single-job wait returns the
first terminal observation. -/
theorem pollAgent_ok_of_first_terminal (g : Nat → Agent) (jid : String)
    (t : Nat) :
    ∀ (fuel round k : Nat), round ≤ k → k ≤ round + fuel →
      (∀ j, round ≤ j → j < k → isTerminal (g j).status = false) →
      isTerminal (g k).status = true →
      pollAgent (fun n => Except.ok (g n)) jid t fuel round = Except.ok (g k) := by
  intro fuel
  induction fuel with
  | zero =>
    intro round k h1 h2 h3 h4
    have hk : k = round := by omega
    subst hk
    simp [pollAgent, h4]
  | succ fuel ih =>
    intro round k h1 h2 h3 h4
    cases hr : isTerminal (g round).status with
    | true =>
      have hk : k = round := by
        by_contra hne
        have hlt : round < k := by omega
        have hfalse := h3 round le_rfl hlt
        rw [hr] at hfalse
        exact Bool.noConfusion hfalse
      subst hk
      simp [pollAgent, hr]
    | false =>
      have hrk : round < k := by
        rcases Nat.lt_or_ge round k with h | h
        · exact h
        · have hk : k = round := by omega
          rw [hk] at h4
          rw [h4] at hr
          exact absurd hr (by simp)
      simp only [pollAgent, hr, Bool.false_eq_true, if_false]
      exact ih (round + 1) k hrk (by omega)
        (fun j hj1 hj2 => h3 j (by omega) hj2) h4

/-- With fetches that all succeed but never terminal, the single-job
wait times out reporting the status of the mandatory final fetch. -/
theorem pollAgent_timeout (g : Nat → Agent) (jid : String) (t : Nat) :
    ∀ (fuel round : Nat),
      (∀ j, round ≤ j → j ≤ round + fuel → isTerminal (g j).status = false) →
      pollAgent (fun n => Except.ok (g n)) jid t fuel round =
        Except.error (timeoutMsg jid t (g (round + fuel)).status) := by
  intro fuel
  induction fuel with
  | zero =>
    intro round h
    have h0 := h round le_rfl (by omega)
    simp [pollAgent, h0]
  | succ fuel ih =>
    intro round h
    have h0 := h round le_rfl (by omega)
    simp only [pollAgent, h0, Bool.false_eq_true, if_false]
    rw [ih (round + 1) (fun j hj1 hj2 => h j (by omega) (by omega))]
    have harith : round + 1 + fuel = round + (fuel + 1) := by omega
    rw [harith]

/-- C5: the single-job wait returns the Job record of the first fetch
that observes a terminal status (rounds 0..fuel-1 are the loop checks,
round fuel is the mandatory final check, so a job RUNNING at every
loop check whose final check is FINISHED succeeds); if no fetch up to
and including the final one observes a terminal status it throws the
timeout error reporting the last-seen status; and it succeeds if and
only if some fetch up to the final one observed a terminal status. -/
theorem pollAgent_wait_spec (g : Nat → Agent) (jid : String) (t fuel k : Nat) :
    ((∀ j, j < k → isTerminal (g j).status = false) → k ≤ fuel →
      isTerminal (g k).status = true →
      pollAgent (fun n => Except.ok (g n)) jid t fuel 0 = Except.ok (g k)) ∧
    ((∀ j, j ≤ fuel → isTerminal (g j).status = false) →
      pollAgent (fun n => Except.ok (g n)) jid t fuel 0 =
        Except.error (timeoutMsg jid t (g fuel).status)) ∧
    ((∃ a, pollAgent (fun n => Except.ok (g n)) jid t fuel 0 = Except.ok a) ↔
      ∃ j, j ≤ fuel ∧ isTerminal (g j).status = true) := by
  refine ⟨fun h1 h2 h3 => pollAgent_ok_of_first_terminal g jid t fuel 0 k
      (Nat.zero_le k) (by omega) (fun j _ hj => h1 j hj) h3,
    fun h => by
      simpa using pollAgent_timeout g jid t fuel 0
        (fun j hj1 hj2 => h j (by omega)), ?_⟩
  constructor
  · rintro ⟨a, ha⟩
    by_contra hno
    push_neg at hno
    have hall : ∀ j, j ≤ fuel → isTerminal (g j).status = false := by
      intro j hj
      have := hno j hj
      cases hb : isTerminal (g j).status with
      | true => exact absurd hb this
      | false => rfl
    have := pollAgent_timeout g jid t fuel 0 (fun j hj1 hj2 => hall j (by omega))
    rw [this] at ha
    exact Except.noConfusion ha
  · rintro ⟨j, hj, hterm⟩
    have hex : ∃ n, isTerminal (g n).status = true := ⟨j, hterm⟩
    refine ⟨g (Nat.find hex), pollAgent_ok_of_first_terminal g jid t fuel 0
      (Nat.find hex) (Nat.zero_le _) ?_ ?_ (Nat.find_spec hex)⟩
    · have hle : Nat.find hex ≤ j := Nat.find_min' hex hterm
      omega
    · intro n hn1 hn2
      have hmin := Nat.find_min hex hn2
      cases hb : isTerminal (g n).status with
      | true => exact absurd hb hmin
      | false => rfl

/-- C5 witness: a job RUNNING at round 0 and FINISHED at round 1 is
returned at the first terminal observation. -/
theorem pollAgent_wait_spec_witness :
    pollAgent (fun n => Except.ok (wg n)) "A" 60000 3 0 = Except.ok (wg 1) :=
  (pollAgent_wait_spec wg "A" 60000 3 1).1
    (by
      intro j hj
      have hj0 : j = 0 := by omega
      subst hj0
      decide)
    (by omega) (by decide)

/-- C4 counterexample: a parameter set supplying the 5-character
webhook secret "short" but no webhook URL is not rejected — the
secret check is skipped and the network call is issued. -/
theorem launchAgent_short_secret_without_url_ok :
    c4NoUrlParams.webhookSecret = some "short" ∧
      "short".length < 32 ∧
      launchAgent c4NoUrlParams =
        Except.ok
          { promptText := "task", promptImages := none,
            repository := "https://github.com/acme/app", ref := none,
            model := none, target := none, webhook := none } := by
  refine ⟨rfl, by decide, rfl⟩

/-- C4 (amended): when a (non-empty) webhook URL is supplied together
with a non-empty webhook secret shorter than 32 characters, the
operation fails with the local validation error before any network
call; without a webhook URL the secret is ignored entirely and no
validation occurs. -/
theorem launchAgent_secret_validation (p : LaunchParams) (u s : String)
    (hu : p.webhookUrl = some u) (hune : u ≠ "")
    (hs : p.webhookSecret = some s) (hsne : s ≠ "")
    (hlen : s.length < 32) :
    launchAgent p = Except.error "Webhook secret must be at least 32 characters" := by
  have hu' : (u == "") = false := beq_eq_false_iff_ne.mpr hune
  have hs' : (s == "") = false := beq_eq_false_iff_ne.mpr hsne
  unfold launchAgent
  rw [hu, hs]
  simp [hu', hs', hlen]

/-- C4 witness: concrete parameters carrying a webhook URL and a
14-character secret are rejected locally. -/
theorem launchAgent_secret_validation_witness :
    launchAgent c4UrlParams =
      Except.error "Webhook secret must be at least 32 characters" :=
  launchAgent_secret_validation c4UrlParams "https://hooks.example.com/x"
    "tooShortSecret" rfl (by decide) rfl (by decide) (by decide)

/-- C9: every non-success HTTP exchange yields a structured error
carrying the status code and the parsed body; its base message follows
the preference order message-field, error-field, raw text, generic
"HTTP code" phrase (with JS falsiness: empty strings fall through);
and for 401/403/404/429 the final message is the guidance wrapping
that still contains the base message verbatim, while every other code
keeps the base message unchanged. -/
theorem optTruthy_some (s : String) : optTruthy (some s) = !(s == "") := rfl

theorem request_error_spec (r : HttpExchange) (h : respOk r.status = false) :
    request r = Except.error
      { message := applyGuidance r.status (errBaseMsg r),
        status := r.status, body := r.parsed } ∧
    (∀ b m, r.parsed = some b → b.message = some m → m ≠ "" →
      errBaseMsg r = m) ∧
    (∀ b m, r.parsed = some b → optTruthy b.message = false →
      b.error = some m → m ≠ "" → errBaseMsg r = m) ∧
    (optTruthy (r.parsed.bind (fun b => b.message)) = false →
      optTruthy (r.parsed.bind (fun b => b.error)) = false →
      r.text ≠ "" → errBaseMsg r = r.text) ∧
    (optTruthy (r.parsed.bind (fun b => b.message)) = false →
      optTruthy (r.parsed.bind (fun b => b.error)) = false →
      r.text = "" → errBaseMsg r = "HTTP " ++ toString r.status) ∧
    (∀ msg, applyGuidance 401 msg =
        "Authentication failed: " ++ msg ++ ". Check CURSOR_API_KEY." ∧
      applyGuidance 403 msg =
        "Forbidden: " ++ msg ++ ". Ensure the GitHub App is installed on this repo." ∧
      applyGuidance 404 msg =
        "Not found: " ++ msg ++ ". Agent may have been deleted." ∧
      applyGuidance 429 msg =
        "Rate limit exceeded: " ++ msg ++ ". Back off and retry.") ∧
    (r.status ≠ 401 → r.status ≠ 403 → r.status ≠ 404 → r.status ≠ 429 →
      applyGuidance r.status (errBaseMsg r) = errBaseMsg r) := by
  have h204 : (r.status == 204) = false := by
    cases hs : r.status == 204 with
    | true =>
      have : r.status = 204 := eq_of_beq hs
      rw [this] at h
      exact absurd h (by decide)
    | false => rfl
  refine ⟨?_, ?_, ?_, ?_, ?_, ?_, ?_⟩
  · simp only [request, h204, Bool.false_eq_true, if_false, h]
  · intro b m hb hm hmne
    have hm' : (m == "") = false := beq_eq_false_iff_ne.mpr hmne
    simp [errBaseMsg, hb, hm, optTruthy, hm']
  · intro b m hb hmsg he hmne
    have hm' : (m == "") = false := beq_eq_false_iff_ne.mpr hmne
    simp [errBaseMsg, hb, hmsg, he, optTruthy_some, hm']
  · intro h1 h2 htext
    have ht' : (r.text == "") = false := beq_eq_false_iff_ne.mpr htext
    simp [errBaseMsg, h1, h2, ht']
  · intro h1 h2 htext
    simp [errBaseMsg, h1, h2, htext]
  · intro msg
    exact ⟨rfl, rfl, rfl, rfl⟩
  · intro h1 h2 h3 h4
    have b1 : (r.status == 401) = false := by
      cases hs : r.status == 401 with
      | true => exact absurd (eq_of_beq hs) h1
      | false => rfl
    have b2 : (r.status == 403) = false := by
      cases hs : r.status == 403 with
      | true => exact absurd (eq_of_beq hs) h2
      | false => rfl
    have b3 : (r.status == 404) = false := by
      cases hs : r.status == 404 with
      | true => exact absurd (eq_of_beq hs) h3
      | false => rfl
    have b4 : (r.status == 429) = false := by
      cases hs : r.status == 429 with
      | true => exact absurd (eq_of_beq hs) h4
      | false => rfl
    simp [applyGuidance, b1, b2, b3, b4]

/-- C9 witness: a 404 exchange with a parsed message field produces
the structured error with the guidance-augmented message. -/
theorem request_error_spec_witness :
    request c9Exchange = Except.error
        { message := applyGuidance c9Exchange.status (errBaseMsg c9Exchange),
          status := c9Exchange.status, body := c9Exchange.parsed } ∧
      errBaseMsg c9Exchange = "Agent not found" :=
  ⟨(request_error_spec c9Exchange (by decide)).1,
    (request_error_spec c9Exchange (by decide)).2.1
      ⟨some "Agent not found", none⟩ "Agent not found" rfl rfl (by decide)⟩

end CursorTeam
